import Mathlib

/-!
Shallow embedding of the voxel-world core of the repository
Killdroid2342/minecraft.  The repository holds two variants of the same
React component: src/components/MinecraftGame.tsx (referred to below as
the TSX variant) and an unnamed second file (referred to as the P0
variant).  The embedding translates the world data model (a JS
Map from string keys to blocks), the terrain generator, the
raycast-driven place/remove edits, and the mouse-look pitch clamp.

Modelling conventions:

- JS numbers are modelled as exact rationals.  Every numeric value reached
  by the modelled operations (integer grid coordinates, half-integer
  placement coordinates, the hit point of the reference scenario) is
  exactly representable as a double, so rational arithmetic agrees with
  the double arithmetic of the source on these values.
- The trigonometric height formula of generateTerrain is kept abstract as
  a height-function parameter; facts about the concrete formula are stated
  with Real.sin and Real.cos directly in theorem statements.
- The JS Map is modelled as an insertion-ordered association list with the
  exact set/get/delete semantics of Map.prototype.
-/

/-- BlockType enum from MinecraftGame.tsx (AIR = 0 .. WOOD = 4). -/
inductive BlockType where
  | AIR
  | GRASS
  | DIRT
  | STONE
  | WOOD
deriving DecidableEq, Repr

/-- A 3D vector with exact rational coordinates, standing for the
THREE.Vector3 values held in block records and used for keys. -/
structure Vec3 where
  x : ℚ
  y : ℚ
  z : ℚ
deriving DecidableEq, Repr

/-- Vector addition, as THREE.Vector3.prototype.add. -/
def Vec3.add (a b : Vec3) : Vec3 :=
  ⟨a.x + b.x, a.y + b.y, a.z + b.z⟩

/-- Position vector with integer coordinates, as produced by the terrain
loops of generateTerrain. -/
def iVec (x y z : ℤ) : Vec3 :=
  ⟨(x : ℚ), (y : ℚ), (z : ℚ)⟩

/-- Model of the JavaScript number-to-string coercion used by the template
literal keys of the component, on the values that actually occur there:
integer-valued numbers print as the integer with no decimal point, and
half-integer values (the only non-integers produced, by floor + 0.5) print
as the sign, the integer part of the absolute value, and a trailing ".5",
exactly as JS prints, for example, 1.5, -0.5 or -3. -/
def jsNumStr (q : ℚ) : String :=
  if (⌊q⌋ : ℚ) = q then toString ⌊q⌋
  else (if q < 0 then "-" else "") ++ toString ⌊|q|⌋ ++ ".5"

/-- The world key of a position: the template literal x,y,z. -/
def posKey (p : Vec3) : String :=
  jsNumStr p.x ++ "," ++ jsNumStr p.y ++ "," ++ jsNumStr p.z

/-- Block record: a type and a position. -/
structure Block where
  type : BlockType
  position : Vec3
deriving DecidableEq, Repr

/-- The Map from string keys to blocks held in worldRef: an
insertion-ordered association list with unique keys. -/
abbrev World := List (String × Block)

/-- Map.prototype.get on the world. -/
def mapGet (w : World) (k : String) : Option Block :=
  match w.find? (fun e => e.1 == k) with
  | some e => some e.2
  | none => none

/-- Map.prototype.has on the world. -/
def mapHas (w : World) (k : String) : Bool :=
  (mapGet w k).isSome

/-- Map.prototype.set on the world: overwrites in place when the key is
already present, otherwise appends the new entry. -/
def mapSet (w : World) (k : String) (b : Block) : World :=
  if w.any (fun e => e.1 == k) then
    w.map (fun e => if e.1 == k then (k, b) else e)
  else
    w ++ [(k, b)]

/-- Map.prototype.delete on the world. -/
def mapDelete (w : World) (k : String) : World :=
  w.filter (fun e => !(e.1 == k))

/-- Block classifier of the TSX generateTerrain: GRASS on the surface and
DIRT in the two layers below it only when the column height exceeds 1,
otherwise STONE.  Mirrors the if/else chain on y === height && height > 1
and y >= height - 2 && height > 1. -/
def classify (height y : ℤ) : BlockType :=
  if y = height ∧ 1 < height then .GRASS
  else if height - 2 ≤ y ∧ 1 < height then .DIRT
  else .STONE

/-- Block classifier of the P0 variant generateTerrain: the same chain
without the height > 1 gate. -/
def classifyP0 (height y : ℤ) : BlockType :=
  if y = height then .GRASS
  else if height - 2 ≤ y then .DIRT
  else .STONE

/-- The integer range lo..hi traversed by a for loop (empty when hi < lo,
as the loop body never runs then). -/
def intRange (lo hi : ℤ) : List ℤ :=
  (List.range (hi + 1 - lo).toNat).map (fun i : ℕ => lo + (i : ℤ))

/-- generateTerrain: clears the world, then for every x and z in bounds
computes a column height with hf and inserts one block per y in 0..height,
typed by the classifier cl and keyed by the x,y,z template literal.  The
source hardcodes bounds -20..20 on both axes; they are parameters here.
The TSX variant is cl := classify with height formula
floor(sin(x * 0.1) * cos(z * 0.1) * 3) + 2; the P0 variant is
cl := classifyP0 with offset 5 instead of 2. -/
def generateTerrain (cl : ℤ → ℤ → BlockType) (hf : ℤ → ℤ → ℤ)
    (xmin xmax zmin zmax : ℤ) : World :=
  (intRange xmin xmax).foldl (fun w x =>
    (intRange zmin zmax).foldl (fun w z =>
      (intRange 0 (hf x z)).foldl (fun w y =>
        mapSet w (posKey (iVec x y z)) ⟨cl (hf x z) y, iVec x y z⟩) w) w) []

/-- Outcome labels for an edit attempt, from the spec (the code reports
nothing; the Blocked label names its silent else-branch). -/
inductive EditResult where
  | Placed (p : Vec3) (t : BlockType)
  | Blocked
deriving DecidableEq, Repr

/-- Right-click branch of handleClick, common to both variants: if the
world already has the target key the world is untouched, otherwise a block
of the selected type is stored at the target. -/
def placeAttempt (w : World) (target : Vec3) (t : BlockType) :
    World × EditResult :=
  if mapHas w (posKey target) then (w, .Blocked)
  else (mapSet w (posKey target) ⟨t, target⟩, .Placed target t)

/-- Place-target computation of the TSX variant: copy the intersection
point, add the face normal, floor every coordinate, then add 0.5 to every
coordinate. -/
def placeTarget (point normal : Vec3) : Vec3 :=
  ⟨(⌊point.x + normal.x⌋ : ℚ) + 1/2,
   (⌊point.y + normal.y⌋ : ℚ) + 1/2,
   (⌊point.z + normal.z⌋ : ℚ) + 1/2⟩

/-- Place-target computation of the P0 variant: the clicked block position
plus the face normal. -/
def placeTargetP0 (blockPos normal : Vec3) : Vec3 :=
  Vec3.add blockPos normal

/-- World effect of left-click removal in the TSX variant
(removeBlockMesh): look the key up and delete it when a block is present,
otherwise do nothing. -/
def removeStep (w : World) (p : Vec3) : World :=
  if (mapGet w (posKey p)).isSome then mapDelete w (posKey p) else w

/-- The block types the player can arm for placement: the initial state is
GRASS and the Digit1..Digit4 keys select GRASS, DIRT, STONE and WOOD, so
AIR is never armed. -/
def selectable : BlockType → Bool
  | .AIR => false
  | _ => true

/-- Mouse-look state held in mouseRef: x accumulates yaw, y pitch. -/
structure MouseState where
  x : ℚ
  y : ℚ
deriving DecidableEq, Repr

/-- handleMouseMove on one pointer-delta event: subtract delta times the
sensitivity 0.002 = 1/500 from each axis, then clamp the pitch to [-b, b]
with Math.max(-b, Math.min(b, y)).  The bound b is a parameter standing
for the double Math.PI / 2, which is not rational. -/
def handleMouseMove (b : ℚ) (st : MouseState) (d : ℚ × ℚ) : MouseState :=
  ⟨st.x - d.1 * (1/500), max (-b) (min b (st.y - d.2 * (1/500)))⟩

/-- Error raised by the spec-level insert at an occupied cell. -/
inductive WorldError where
  | OccupiedCellError
deriving DecidableEq, Repr

namespace VoxelWorld

/-- Modelled from the spec: section 4.1 gives VoxelWorld an insert
operation that "fails with OccupiedCellError if get(block.position) is
already present; otherwise stores it".  No standalone insert exists in
src; the call sites inline the occupancy check (handleClick) or call
Map.set directly (generateTerrain), so this definition follows the words
of the spec over the same world model. -/
def insert (w : World) (b : Block) : Except WorldError World :=
  if (mapGet w (posKey b.position)).isSome then .error .OccupiedCellError
  else .ok (mapSet w (posKey b.position) b)

end VoxelWorld

/-- The six outward unit face normals of an axis-aligned unit cube. -/
def unitNormals : List Vec3 :=
  [⟨1,0,0⟩, ⟨-1,0,0⟩, ⟨0,1,0⟩, ⟨0,-1,0⟩, ⟨0,0,1⟩, ⟨0,0,-1⟩]

/-- The point lies on the face of the unit cube centered at c whose
outward unit normal is n: the offset from the center has component 1/2
along n and components of magnitude at most 1/2 on every axis. -/
def onFace (c point n : Vec3) : Prop :=
  n ∈ unitNormals ∧
  (point.x - c.x) * n.x + (point.y - c.y) * n.y + (point.z - c.z) * n.z
    = 1/2 ∧
  |point.x - c.x| ≤ 1/2 ∧ |point.y - c.y| ≤ 1/2 ∧ |point.z - c.z| ≤ 1/2

/-- The point of a ray at parameter t. -/
def rayPoint (origin dir : Vec3) (t : ℚ) : Vec3 :=
  ⟨origin.x + t * dir.x, origin.y + t * dir.y, origin.z + t * dir.z⟩

/-- World states reachable by the modelled TSX operations: the empty map,
full terrain regeneration, a place attempt of an armed (selectable) type,
and block removal. -/
inductive Reachable : World → Prop where
  | empty : Reachable []
  | terrain (hf : ℤ → ℤ → ℤ) (xmin xmax zmin zmax : ℤ) :
      Reachable (generateTerrain classify hf xmin xmax zmin zmax)
  | place {w : World} (hw : Reachable w) (point normal : Vec3)
      (t : BlockType) (ht : selectable t = true) :
      Reachable (placeAttempt w (placeTarget point normal) t).1
  | remove {w : World} (hw : Reachable w) (p : Vec3) :
      Reachable (removeStep w p)

/-! ### String facts: integer keys never contain a decimal point -/

theorem digitChar_ne_dot : ∀ n : ℕ, Nat.digitChar n ≠ '.'
  | 0 => by decide
  | 1 => by decide
  | 2 => by decide
  | 3 => by decide
  | 4 => by decide
  | 5 => by decide
  | 6 => by decide
  | 7 => by decide
  | 8 => by decide
  | 9 => by decide
  | 10 => by decide
  | 11 => by decide
  | 12 => by decide
  | 13 => by decide
  | 14 => by decide
  | 15 => by decide
  | (n+16) => by
      intro h
      rw [show Nat.digitChar (n+16) = '*' from rfl] at h
      exact absurd h (by decide)

theorem toDigitsCore_ne_dot (b : ℕ) : ∀ (fuel n : ℕ) (acc : List Char),
    (∀ c ∈ acc, c ≠ '.') → ∀ c ∈ Nat.toDigitsCore b fuel n acc, c ≠ '.' := by
  intro fuel
  induction fuel with
  | zero =>
    intro n acc hacc c hc
    simp only [Nat.toDigitsCore] at hc
    exact hacc c hc
  | succ fuel ih =>
    intro n acc hacc c hc
    simp only [Nat.toDigitsCore] at hc
    split at hc
    · rcases List.mem_cons.mp hc with h | h
      · rw [h]; exact digitChar_ne_dot _
      · exact hacc c h
    · refine ih _ _ ?_ c hc
      intro d hd
      rcases List.mem_cons.mp hd with h | h
      · rw [h]; exact digitChar_ne_dot _
      · exact hacc d h

theorem natRepr_ne_dot (n : ℕ) : ∀ c ∈ (Nat.repr n).data, c ≠ '.' := by
  intro c hc
  have h0 : (Nat.repr n).data = Nat.toDigits 10 n := rfl
  rw [h0, Nat.toDigits] at hc
  exact toDigitsCore_ne_dot 10 (n+1) n [] (by intro d hd; cases hd) c hc

theorem intRepr_ne_dot (n : ℤ) : ∀ c ∈ (toString n).data, c ≠ '.' := by
  intro c hc
  cases n with
  | ofNat m =>
    exact natRepr_ne_dot m c hc
  | negSucc m =>
    have h0 : (toString (Int.negSucc m)).data = '-' :: (Nat.repr (m+1)).data := rfl
    rw [h0] at hc
    rcases List.mem_cons.mp hc with h | h
    · rw [h]; decide
    · exact natRepr_ne_dot (m+1) c h

theorem strData_append (s t : String) : (s ++ t).data = s.data ++ t.data := by
  cases s
  cases t
  rfl

theorem jsNumStr_intCast (n : ℤ) : jsNumStr (n : ℚ) = toString n := by
  unfold jsNumStr
  rw [if_pos (by rw [Int.floor_intCast]), Int.floor_intCast]

theorem comma_data : ("," : String).data = [','] := rfl

theorem posKey_data_ne_dot (p : Vec3)
    (h1 : ∀ c ∈ (jsNumStr p.x).data, c ≠ '.')
    (h2 : ∀ c ∈ (jsNumStr p.y).data, c ≠ '.')
    (h3 : ∀ c ∈ (jsNumStr p.z).data, c ≠ '.') :
    ∀ c ∈ (posKey p).data, c ≠ '.' := by
  intro c hc
  unfold posKey at hc
  simp only [strData_append, comma_data, List.mem_append,
    List.mem_singleton] at hc
  rcases hc with ((((hc | hc) | hc) | hc) | hc)
  · exact h1 c hc
  · rw [hc]; decide
  · exact h2 c hc
  · rw [hc]; decide
  · exact h3 c hc

theorem posKey_iVec_ne_dot (x y z : ℤ) :
    ∀ c ∈ (posKey (iVec x y z)).data, c ≠ '.' := by
  refine posKey_data_ne_dot (iVec x y z) ?_ ?_ ?_ <;>
    simp only [iVec, jsNumStr_intCast]
  · exact intRepr_ne_dot x
  · exact intRepr_ne_dot y
  · exact intRepr_ne_dot z

theorem floor_add_half_ne (a : ℤ) : ((⌊((a:ℚ) + 1/2)⌋ : ℚ)) ≠ (a:ℚ) + 1/2 := by
  rw [Int.floor_int_add, show (⌊(1/2 : ℚ)⌋ : ℤ) = 0 by norm_num]
  push_cast
  intro h
  nlinarith [h]

theorem jsNumStr_half_has_dot (q : ℚ) (h : ((⌊q⌋ : ℚ)) ≠ q) :
    '.' ∈ (jsNumStr q).data := by
  unfold jsNumStr
  rw [if_neg h]
  simp only [strData_append]
  refine List.mem_append.mpr (Or.inr ?_)
  decide

theorem posKey_placeTarget_has_dot (point normal : Vec3) :
    '.' ∈ (posKey (placeTarget point normal)).data := by
  unfold posKey
  simp only [strData_append]
  refine List.mem_append.mpr (Or.inl (List.mem_append.mpr (Or.inl
    (List.mem_append.mpr (Or.inl (List.mem_append.mpr (Or.inl ?_)))))))
  exact jsNumStr_half_has_dot _ (floor_add_half_ne ⌊point.x + normal.x⌋)

/-! ### Map lemmas -/

theorem mapSet_of_not_found (w : World) (k : String) (b : Block)
    (h : w.any (fun e => e.1 == k) = false) :
    mapSet w k b = w ++ [(k, b)] := by
  unfold mapSet
  rw [if_neg (by rw [h]; exact Bool.false_ne_true)]

theorem mapGet_eq_none_iff (w : World) (k : String) :
    mapGet w k = none ↔ ∀ e ∈ w, e.1 ≠ k := by
  unfold mapGet
  constructor
  · intro h e he
    split at h
    · exact Option.noConfusion h
    · next hf =>
      have := List.find?_eq_none.mp hf e he
      simpa using this
  · intro h
    have hf : w.find? (fun e => e.1 == k) = none := by
      refine List.find?_eq_none.mpr ?_
      intro e he
      simpa using h e he
    rw [hf]

theorem any_eq_false_iff (w : World) (k : String) :
    w.any (fun e => e.1 == k) = false ↔ ∀ e ∈ w, e.1 ≠ k := by
  constructor
  · intro h e he hk
    have hmem : w.any (fun d => d.1 == k) = true :=
      List.any_eq_true.mpr ⟨e, he, beq_iff_eq.mpr hk⟩
    rw [h] at hmem
    exact Bool.false_ne_true hmem
  · intro h
    refine Bool.eq_false_iff.mpr ?_
    intro htrue
    rcases List.any_eq_true.mp htrue with ⟨e, he, hk⟩
    exact h e he (beq_iff_eq.mp hk)

theorem mapHas_false_iff (w : World) (k : String) :
    mapHas w k = false ↔ mapGet w k = none := by
  unfold mapHas
  cases h : mapGet w k with
  | none => simp
  | some b => simp

theorem mem_mapSet {w : World} {k : String} {b : Block} {e : String × Block}
    (he : e ∈ mapSet w k b) : e ∈ w ∨ e = (k, b) := by
  unfold mapSet at he
  split at he
  · rcases List.mem_map.mp he with ⟨d, hd, hde⟩
    by_cases hk : d.1 == k
    · right
      rw [if_pos hk] at hde
      exact hde.symm
    · left
      rw [if_neg hk] at hde
      exact hde ▸ hd
  · rcases List.mem_append.mp he with h | h
    · exact Or.inl h
    · exact Or.inr (List.mem_singleton.mp h)

theorem keys_mapSet_nodup {w : World} {k : String} {b : Block}
    (h : (w.map Prod.fst).Nodup) : ((mapSet w k b).map Prod.fst).Nodup := by
  unfold mapSet
  split
  · have hkeys : (w.map (fun e => if e.1 == k then (k, b) else e)).map Prod.fst
        = w.map Prod.fst := by
      rw [List.map_map]
      refine List.map_congr_left ?_
      intro e _
      by_cases hk : e.1 == k
      · simp only [Function.comp_apply, if_pos hk]
        exact (beq_iff_eq.mp hk).symm
      · simp only [Function.comp_apply, if_neg hk]
    rw [hkeys]
    exact h
  · next hany =>
    rw [List.map_append]
    refine List.Nodup.append h (by simp) ?_
    intro a ha hb
    simp only [List.map_cons, List.map_nil, List.mem_singleton] at hb
    rcases List.mem_map.mp ha with ⟨e, he, rfl⟩
    have hfalse : (w.any fun d => d.1 == k) = false := Bool.eq_false_iff.mpr hany
    exact (any_eq_false_iff w k).mp hfalse e he hb

theorem mem_mapDelete {w : World} {k : String} {e : String × Block}
    (he : e ∈ mapDelete w k) : e ∈ w :=
  List.mem_of_mem_filter he

theorem keys_mapDelete_nodup {w : World} {k : String}
    (h : (w.map Prod.fst).Nodup) : ((mapDelete w k).map Prod.fst).Nodup := by
  unfold mapDelete
  exact h.sublist (List.Sublist.map Prod.fst (List.filter_sublist w))

theorem mapGet_append_single (w : World) (k : String) (b : Block)
    (h : ∀ e ∈ w, e.1 ≠ k) : mapGet (w ++ [(k, b)]) k = some b := by
  induction w with
  | nil =>
    unfold mapGet
    simp [List.find?]
  | cons e w ih =>
    have he : e.1 ≠ k := h e (List.mem_cons_self e w)
    unfold mapGet
    rw [List.cons_append, List.find?]
    rw [show (e.1 == k) = false from beq_eq_false_iff_ne.mpr he]
    exact ih (fun d hd => h d (List.mem_cons_of_mem e hd))

theorem mapDelete_append_single (w : World) (k : String) (b : Block)
    (h : ∀ e ∈ w, e.1 ≠ k) : mapDelete (w ++ [(k, b)]) k = w := by
  unfold mapDelete
  rw [List.filter_append]
  have h1 : w.filter (fun e => !(e.1 == k)) = w := by
    refine List.filter_eq_self.mpr ?_
    intro e he
    simpa using h e he
  have h2 : ([(k, b)] : World).filter (fun e => !(e.1 == k)) = [] := by
    simp
  rw [h1, h2, List.append_nil]

theorem mapGet_overwrite (k : String) (b : Block) : ∀ w : World,
    mapGet (w.map (fun e => if e.1 == k then (k, b) else e)) k
      = if w.any (fun e => e.1 == k) then some b else none := by
  intro w
  induction w with
  | nil =>
    simp [mapGet]
  | cons e w ih =>
    by_cases hk : e.1 == k
    · unfold mapGet
      rw [List.map_cons, if_pos hk, List.find?]
      rw [show ((k, b).1 == k) = true from beq_iff_eq.mpr rfl]
      rw [show (e :: w).any (fun e => e.1 == k) = true from
        List.any_eq_true.mpr ⟨e, List.mem_cons_self e w, hk⟩, if_pos rfl]
    · unfold mapGet
      rw [List.map_cons, if_neg hk, List.find?]
      rw [show (e.1 == k) = false from Bool.eq_false_iff.mpr hk]
      have hany : (e :: w).any (fun e => e.1 == k) = w.any (fun e => e.1 == k) := by
        rw [List.any_cons, show (e.1 == k) = false from Bool.eq_false_iff.mpr hk,
          Bool.false_or]
      rw [hany]
      exact ih

theorem mapGet_mapSet_self (w : World) (k : String) (b : Block) :
    mapGet (mapSet w k b) k = some b := by
  unfold mapSet
  split
  · next hany =>
    rw [mapGet_overwrite, if_pos hany]
  · next hany =>
    have hfalse : (w.any fun d => d.1 == k) = false := Bool.eq_false_iff.mpr hany
    exact mapGet_append_single w k b ((any_eq_false_iff w k).mp hfalse)

/-! ### Fold lemmas -/

theorem foldl_preserve {β : Type} (P : World → Prop) (F : World → β → World)
    (hF : ∀ w b, P w → P (F w b)) :
    ∀ (l : List β) (w : World), P w → P (l.foldl F w) := by
  intro l
  induction l with
  | nil => intro w hw; exact hw
  | cons b l ih =>
    intro w hw
    exact ih (F w b) (hF w b hw)

theorem foldl_mem {β : Type} (Q : β → (String × Block) → Prop)
    (F : World → β → World)
    (hF : ∀ w b e, e ∈ F w b → e ∈ w ∨ Q b e) :
    ∀ (l : List β) (w : World) (e : String × Block),
      e ∈ l.foldl F w → e ∈ w ∨ ∃ b ∈ l, Q b e := by
  intro l
  induction l with
  | nil => intro w e he; exact Or.inl he
  | cons b l ih =>
    intro w e he
    rcases ih (F w b) e he with h | ⟨c, hc, hq⟩
    · rcases hF w b e h with h | h
      · exact Or.inl h
      · exact Or.inr ⟨b, List.mem_cons_self b l, h⟩
    · exact Or.inr ⟨c, List.mem_cons_of_mem b hc, hq⟩

theorem mem_intRange (a lo hi : ℤ) : a ∈ intRange lo hi ↔ lo ≤ a ∧ a ≤ hi := by
  unfold intRange
  constructor
  · intro h
    rcases List.mem_map.mp h with ⟨i, hi, rfl⟩
    rw [List.mem_range] at hi
    omega
  · intro ⟨h1, h2⟩
    refine List.mem_map.mpr ⟨(a - lo).toNat, ?_, by omega⟩
    rw [List.mem_range]
    omega

/-! ### Terrain characterization -/

theorem mem_generateTerrain (cl : ℤ → ℤ → BlockType) (hf : ℤ → ℤ → ℤ)
    (xmin xmax zmin zmax : ℤ) (e : String × Block)
    (he : e ∈ generateTerrain cl hf xmin xmax zmin zmax) :
    ∃ x y z : ℤ, xmin ≤ x ∧ x ≤ xmax ∧ zmin ≤ z ∧ z ≤ zmax ∧
      0 ≤ y ∧ y ≤ hf x z ∧
      e = (posKey (iVec x y z), ⟨cl (hf x z) y, iVec x y z⟩) := by
  unfold generateTerrain at he
  have houter := foldl_mem
    (fun x e => ∃ y z : ℤ, zmin ≤ z ∧ z ≤ zmax ∧ 0 ≤ y ∧ y ≤ hf x z ∧
      e = (posKey (iVec x y z), ⟨cl (hf x z) y, iVec x y z⟩)) _
    (fun w x e hmem => by
      have hmid := foldl_mem
        (fun z e => ∃ y : ℤ, 0 ≤ y ∧ y ≤ hf x z ∧
          e = (posKey (iVec x y z), ⟨cl (hf x z) y, iVec x y z⟩)) _
        (fun w z e hmem => by
          have hin := foldl_mem
            (fun y e => e = (posKey (iVec x y z), ⟨cl (hf x z) y, iVec x y z⟩)) _
            (fun w y e hmem => by
              rcases mem_mapSet hmem with h | h
              · exact Or.inl h
              · exact Or.inr h) _ _ _ hmem
          rcases hin with h | ⟨y, hy, he⟩
          · exact Or.inl h
          · exact Or.inr ⟨y, ((mem_intRange y 0 (hf x z)).mp hy).1,
              ((mem_intRange y 0 (hf x z)).mp hy).2, he⟩) _ _ _ hmem
      rcases hmid with h | ⟨z, hz, y, hy0, hy1, he⟩
      · exact Or.inl h
      · exact Or.inr ⟨y, z, ((mem_intRange z zmin zmax).mp hz).1,
          ((mem_intRange z zmin zmax).mp hz).2, hy0, hy1, he⟩) _ _ _ he
  rcases houter with h | ⟨x, hx, y, z, hz1, hz2, hy0, hy1, he⟩
  · cases h
  · exact ⟨x, y, z, ((mem_intRange x xmin xmax).mp hx).1,
      ((mem_intRange x xmin xmax).mp hx).2, hz1, hz2, hy0, hy1, he⟩

/-! ### Well-formedness invariant -/

/-- Well-formedness of a world: keys are unique (each position key maps to
at most one block) and every stored block has a solid, non-Air type. -/
def WF (w : World) : Prop :=
  (w.map Prod.fst).Nodup ∧
  ∀ e ∈ w, e.2.type ≠ .AIR ∧
    (e.2.type = .GRASS ∨ e.2.type = .DIRT ∨ e.2.type = .STONE ∨
      e.2.type = .WOOD)

theorem solid_of_ne_AIR {t : BlockType} (h : t ≠ .AIR) :
    t = .GRASS ∨ t = .DIRT ∨ t = .STONE ∨ t = .WOOD := by
  cases t
  · exact absurd rfl h
  · exact Or.inl rfl
  · exact Or.inr (Or.inl rfl)
  · exact Or.inr (Or.inr (Or.inl rfl))
  · exact Or.inr (Or.inr (Or.inr rfl))

theorem WF_empty : WF [] := by
  refine ⟨List.nodup_nil, ?_⟩
  intro e he
  cases he

theorem WF_mapSet {w : World} {k : String} {b : Block}
    (hw : WF w) (hb : b.type ≠ .AIR) : WF (mapSet w k b) := by
  refine ⟨keys_mapSet_nodup hw.1, ?_⟩
  intro e he
  rcases mem_mapSet he with h | h
  · exact hw.2 e h
  · rw [h]
    exact ⟨hb, solid_of_ne_AIR hb⟩

theorem WF_mapDelete {w : World} {k : String} (hw : WF w) :
    WF (mapDelete w k) := by
  refine ⟨keys_mapDelete_nodup hw.1, ?_⟩
  intro e he
  exact hw.2 e (mem_mapDelete he)

theorem classify_ne_AIR (h y : ℤ) : classify h y ≠ .AIR := by
  unfold classify
  split
  · decide
  · split
    · decide
    · decide

theorem classifyP0_ne_AIR (h y : ℤ) : classifyP0 h y ≠ .AIR := by
  unfold classifyP0
  split
  · decide
  · split
    · decide
    · decide

theorem selectable_ne_AIR {t : BlockType} (h : selectable t = true) :
    t ≠ .AIR := by
  cases t
  · exact absurd h (by decide)
  all_goals decide

theorem WF_generateTerrain (cl : ℤ → ℤ → BlockType) (hf : ℤ → ℤ → ℤ)
    (xmin xmax zmin zmax : ℤ) (hcl : ∀ h y, cl h y ≠ .AIR) :
    WF (generateTerrain cl hf xmin xmax zmin zmax) := by
  unfold generateTerrain
  refine foldl_preserve WF _ ?_ _ _ WF_empty
  intro w x hw
  refine foldl_preserve WF _ ?_ _ _ hw
  intro w z hw
  refine foldl_preserve WF _ ?_ _ _ hw
  intro w y hw
  exact WF_mapSet hw (hcl _ _)

theorem WF_placeAttempt {w : World} {target : Vec3} {t : BlockType}
    (hw : WF w) (ht : t ≠ .AIR) : WF (placeAttempt w target t).1 := by
  unfold placeAttempt
  split
  · exact hw
  · exact WF_mapSet hw ht

theorem WF_removeStep {w : World} {p : Vec3} (hw : WF w) :
    WF (removeStep w p) := by
  unfold removeStep
  split
  · exact WF_mapDelete hw
  · exact hw

theorem WF_reachable {w : World} (hw : Reachable w) : WF w := by
  induction hw with
  | empty => exact WF_empty
  | terrain hf xmin xmax zmin zmax =>
    exact WF_generateTerrain classify hf xmin xmax zmin zmax classify_ne_AIR
  | place hw point normal t ht ih =>
    exact WF_placeAttempt ih (selectable_ne_AIR ht)
  | remove hw p ih =>
    exact WF_removeStep ih

/-! ### Classifier facts and coordinate injectivity -/

theorem iVec_inj {x y z a b c : ℤ} (h : iVec x y z = iVec a b c) :
    x = a ∧ y = b ∧ z = c := by
  unfold iVec at h
  have h1 : (x : ℚ) = a := congrArg Vec3.x h
  have h2 : (y : ℚ) = b := congrArg Vec3.y h
  have h3 : (z : ℚ) = c := congrArg Vec3.z h
  exact ⟨by exact_mod_cast h1, by exact_mod_cast h2, by exact_mod_cast h3⟩

theorem classify_eq_STONE_of_le_one {h y : ℤ} (hh : h ≤ 1) :
    classify h y = .STONE := by
  unfold classify
  rw [if_neg (by omega), if_neg (by omega)]

theorem grass_classify {h y : ℤ} (he : classify h y = .GRASS) :
    y = h ∧ 1 < h := by
  unfold classify at he
  split at he
  · next hc => exact hc
  · split at he
    · exact absurd he (by decide)
    · exact absurd he (by decide)

theorem grass_classify_of (h y : ℤ) (hy : y = h) (hh : 1 < h) :
    classify h y = .GRASS := by
  unfold classify
  rw [if_pos ⟨hy, hh⟩]

theorem dirt_classify {h y : ℤ} (he : classify h y = .DIRT) :
    h - 2 ≤ y ∧ y ≠ h ∧ 1 < h := by
  unfold classify at he
  split at he
  · exact absurd he (by decide)
  · next hc1 =>
    split at he
    · next hc2 => exact ⟨hc2.1, fun hy => hc1 ⟨hy, hc2.2⟩, hc2.2⟩
    · exact absurd he (by decide)

theorem classifyP0_eq_classify {h y : ℤ} (hh : 1 < h) :
    classifyP0 h y = classify h y := by
  unfold classifyP0 classify
  split_ifs <;> first | rfl | (exfalso; omega)

/-! ### Pitch clamp helper -/

theorem pitch_fold_bound (b : ℚ) (hb : 0 ≤ b) (ds : List (ℚ × ℚ)) :
    ∀ st : MouseState, -b ≤ st.y ∧ st.y ≤ b →
      -b ≤ (ds.foldl (handleMouseMove b) st).y ∧
        (ds.foldl (handleMouseMove b) st).y ≤ b := by
  induction ds with
  | nil => intro st h; exact h
  | cons d ds ih =>
    intro st _
    refine ih (handleMouseMove b st d) ⟨?_, ?_⟩
    · exact le_max_left (-b) _
    · exact max_le (by linarith) (min_le_left b _)

/-! ### Trigonometric bounds for the concrete height formula -/

theorem sin_one_gt : (3:ℝ)/4 < Real.sin 1 := by
  have h := Real.sin_gt_sub_cube (by norm_num : (0:ℝ) < 1) (le_refl 1)
  nlinarith [h]

theorem cos_one_ge : (43:ℝ)/96 ≤ Real.cos 1 := by
  have h := Real.cos_bound (x := 1) (by norm_num)
  have h3 := abs_le.mp h
  norm_num at h3
  linarith [h3.1]

theorem sin_two_gt : (2:ℝ)/3 < Real.sin 2 := by
  have h4 : Real.sin 2 = 2 * Real.sin 1 * Real.cos 1 := by
    have h := Real.sin_two_mul 1
    norm_num at h
    exact h
  nlinarith [sin_one_gt, cos_one_ge, h4]

/-! ### Claims -/

/-- C1: Occupancy invariant: in every world state reachable by terrain
generation, block placement and block removal, the world mapping
associates each position key with at most one block (the key list has no
duplicates), and no stored block has type Air: every stored type is one of
Grass, Dirt, Stone, Wood. -/
theorem occupancy_invariant (w : World) (hw : Reachable w) :
    ((w.map Prod.fst).Nodup) ∧
    ∀ e ∈ w, e.2.type ≠ .AIR ∧
      (e.2.type = .GRASS ∨ e.2.type = .DIRT ∨ e.2.type = .STONE ∨
        e.2.type = .WOOD) :=
  WF_reachable hw

theorem occupancy_invariant_witness :
    ((generateTerrain classify (fun _ _ => 1) 0 0 0 0).map Prod.fst).Nodup ∧
    (generateTerrain classify (fun _ _ => 1) 0 0 0 0).map Prod.fst
      = ["0,0,0", "0,1,0"] :=
  ⟨(occupancy_invariant _ (Reachable.terrain (fun _ _ => 1) 0 0 0 0)).1,
    by decide⟩

/-- C4: Insert occupancy check: the spec-modelled insert fails with
OccupiedCellError when get at the block position is already present (the
world value is untouched because the error branch carries no world), and
stores the block when the position is free. -/
theorem insert_occupancy (w : World) (b : Block) :
    ((mapGet w (posKey b.position)).isSome = true →
      VoxelWorld.insert w b = .error .OccupiedCellError) ∧
    (mapGet w (posKey b.position) = none →
      VoxelWorld.insert w b = .ok (mapSet w (posKey b.position) b) ∧
      mapGet (mapSet w (posKey b.position) b) (posKey b.position)
        = some b) := by
  constructor
  · intro h
    unfold VoxelWorld.insert
    rw [if_pos h]
  · intro h
    unfold VoxelWorld.insert
    rw [if_neg (by rw [h]; exact Bool.false_ne_true)]
    exact ⟨rfl, mapGet_mapSet_self w _ b⟩

theorem insert_occupancy_witness :
    ((mapGet [("0,0,0", ⟨BlockType.STONE, iVec 0 0 0⟩)]
        (posKey (iVec 0 0 0))).isSome = true) ∧
    VoxelWorld.insert [("0,0,0", ⟨BlockType.STONE, iVec 0 0 0⟩)]
        ⟨BlockType.GRASS, iVec 0 0 0⟩
      = Except.error WorldError.OccupiedCellError :=
  ⟨by decide,
    (insert_occupancy [("0,0,0", ⟨BlockType.STONE, iVec 0 0 0⟩)]
      ⟨BlockType.GRASS, iVec 0 0 0⟩).1 (by decide)⟩

/-- C5: Place on an occupied target is a no-op: when the computed target
key is already in the world, the place attempt reports Blocked and returns
the world unchanged; any Blocked outcome leaves the world unchanged, and a
removal of an absent position is likewise a no-op, so the worst-case
outcome of an edit attempt is a no-op. -/
theorem place_blocked_noop (w : World) (target p : Vec3) (t : BlockType) :
    (mapHas w (posKey target) = true →
      placeAttempt w target t = (w, .Blocked)) ∧
    ((placeAttempt w target t).2 = .Blocked →
      (placeAttempt w target t).1 = w) ∧
    (mapGet w (posKey p) = none → removeStep w p = w) := by
  refine ⟨?_, ?_, ?_⟩
  · intro h
    unfold placeAttempt
    rw [if_pos h]
  · intro h
    unfold placeAttempt at h ⊢
    split at h
    · next hc => rw [if_pos hc]
    · exact absurd h (by simp)
  · intro h
    unfold removeStep
    rw [if_neg (by rw [h]; exact Bool.false_ne_true)]

theorem place_blocked_noop_witness :
    (mapHas [("0,1,0", ⟨BlockType.STONE, iVec 0 1 0⟩)]
        (posKey (iVec 0 1 0)) = true) ∧
    placeAttempt [("0,1,0", ⟨BlockType.STONE, iVec 0 1 0⟩)] (iVec 0 1 0)
        BlockType.GRASS
      = ([("0,1,0", ⟨BlockType.STONE, iVec 0 1 0⟩)], EditResult.Blocked) :=
  ⟨by decide,
    (place_blocked_noop [("0,1,0", ⟨BlockType.STONE, iVec 0 1 0⟩)]
      (iVec 0 1 0) (iVec 0 1 0) BlockType.GRASS).1 (by decide)⟩

/-- C6: Terrain generation determinism: generateTerrain is a pure function
of the classifier, the height function and the bounds; two calls with
identical bounds and pointwise identical height constants produce
structurally identical worlds, in particular the same list of
(position, type) pairs. -/
theorem generateTerrain_deterministic (cl : ℤ → ℤ → BlockType)
    (hf₁ hf₂ : ℤ → ℤ → ℤ) (xmin xmax zmin zmax : ℤ)
    (h : ∀ x z, hf₁ x z = hf₂ x z) :
    generateTerrain cl hf₁ xmin xmax zmin zmax
      = generateTerrain cl hf₂ xmin xmax zmin zmax ∧
    (generateTerrain cl hf₁ xmin xmax zmin zmax).map
        (fun e => (e.2.position, e.2.type))
      = (generateTerrain cl hf₂ xmin xmax zmin zmax).map
        (fun e => (e.2.position, e.2.type)) := by
  have hf : hf₁ = hf₂ := funext fun x => funext fun z => h x z
  rw [hf]
  exact ⟨rfl, rfl⟩

theorem generateTerrain_deterministic_witness :
    ((fun _ _ => (1:ℤ)) 0 0 = (fun x _ => x - x + 1) 0 0) ∧
    generateTerrain classify (fun _ _ => 1) 0 0 0 0
      = generateTerrain classify (fun x _ => x - x + 1) 0 0 0 0 :=
  ⟨rfl,
    (generateTerrain_deterministic classify (fun _ _ => 1)
      (fun x _ => x - x + 1) 0 0 0 0
      (fun x z => by show (1:ℤ) = x - x + 1; ring)).1⟩

/-- C7: Pitch clamp invariant: starting from pitch 0, after every finite
sequence of pointer-delta events processed by handleMouseMove the pitch
lies in [-b, b], where b stands for the clamp bound pi/2; a delta whose
pre-clamp value reaches or passes a bound leaves the pitch pinned exactly
at that bound, never wrapped or overshot. -/
theorem pitch_clamp (b : ℚ) (hb : 0 ≤ b) :
    (∀ (ds : List (ℚ × ℚ)) (x0 : ℚ),
      -b ≤ (ds.foldl (handleMouseMove b) ⟨x0, 0⟩).y ∧
      (ds.foldl (handleMouseMove b) ⟨x0, 0⟩).y ≤ b) ∧
    (∀ (st : MouseState) (d : ℚ × ℚ),
      b ≤ st.y - d.2 * (1/500) → (handleMouseMove b st d).y = b) ∧
    (∀ (st : MouseState) (d : ℚ × ℚ),
      st.y - d.2 * (1/500) ≤ -b → (handleMouseMove b st d).y = -b) := by
  refine ⟨?_, ?_, ?_⟩
  · intro ds x0
    exact pitch_fold_bound b hb ds ⟨x0, 0⟩
      ⟨show -b ≤ (0:ℚ) by linarith, show (0:ℚ) ≤ b from hb⟩
  · intro st d h
    unfold handleMouseMove
    rw [min_eq_left h, max_eq_right (by linarith : -b ≤ b)]
  · intro st d h
    unfold handleMouseMove
    rw [min_eq_right (by linarith : st.y - d.2 * (1/500) ≤ b),
      max_eq_left h]

theorem pitch_clamp_witness :
    ((0:ℚ) ≤ 2) ∧
    ([((0:ℚ), (-10000:ℚ))].foldl (handleMouseMove 2) ⟨0, 0⟩).y ≤ 2 ∧
    ([((0:ℚ), (-10000:ℚ))].foldl (handleMouseMove 2) ⟨0, 0⟩).y = 2 :=
  ⟨by norm_num,
    ((pitch_clamp 2 (by norm_num)).1 [((0:ℚ), (-10000:ℚ))] 0).2,
    by norm_num [handleMouseMove]⟩

/-- C8: Place/remove round-trip: for every world and every position whose
key is absent, placing a block there and then removing that position
restores the world list exactly, with no residual entries. -/
theorem place_remove_round_trip (w : World) (p : Vec3) (t : BlockType)
    (h : mapHas w (posKey p) = false) :
    removeStep (placeAttempt w p t).1 p = w := by
  have hnone := (mapHas_false_iff w (posKey p)).mp h
  have hkeys := (mapGet_eq_none_iff w (posKey p)).mp hnone
  have hany := (any_eq_false_iff w (posKey p)).mpr hkeys
  have hset : (placeAttempt w p t).1 = w ++ [(posKey p, ⟨t, p⟩)] := by
    unfold placeAttempt
    rw [if_neg (by rw [h]; exact Bool.false_ne_true)]
    exact mapSet_of_not_found w _ _ hany
  rw [hset]
  unfold removeStep
  rw [mapGet_append_single w _ _ hkeys]
  rw [if_pos (show (some (⟨t, p⟩ : Block)).isSome = true from rfl)]
  exact mapDelete_append_single w _ _ hkeys

theorem place_remove_round_trip_witness :
    (mapHas [("0,0,0", ⟨BlockType.STONE, iVec 0 0 0⟩)]
        (posKey (iVec 0 1 0)) = false) ∧
    removeStep
        (placeAttempt [("0,0,0", ⟨BlockType.STONE, iVec 0 0 0⟩)]
          (iVec 0 1 0) BlockType.GRASS).1 (iVec 0 1 0)
      = [("0,0,0", ⟨BlockType.STONE, iVec 0 0 0⟩)] :=
  ⟨by decide,
    place_remove_round_trip [("0,0,0", ⟨BlockType.STONE, iVec 0 0 0⟩)]
      (iVec 0 1 0) BlockType.GRASS (by decide)⟩

theorem posKey_target_ne_iVec (point normal : Vec3) (x y z : ℤ) :
    posKey (placeTarget point normal) ≠ posKey (iVec x y z) := by
  intro h
  have hdot := posKey_placeTarget_has_dot point normal
  rw [h] at hdot
  exact posKey_iVec_ne_dot x y z '.' hdot rfl

/-- C2 counterexample: in the TSX variant, with the single block at
(0,0,0), the downward ray from (0,5,0) meets its top face at (0, 0.5, 0)
with outward normal (0,1,0) at ray parameter 4.5, yet the place target
computed by handleClick is (0.5, 1.5, 0.5), not the adjacent integer cell
(0,1,0) the claim requires. -/
theorem place_adjacency_counterexample :
    onFace (iVec 0 0 0) ⟨0, 1/2, 0⟩ ⟨0, 1, 0⟩ ∧
    rayPoint ⟨0, 5, 0⟩ ⟨0, -1, 0⟩ (9/2) = ⟨0, 1/2, 0⟩ ∧
    placeTarget ⟨0, 1/2, 0⟩ ⟨0, 1, 0⟩ ≠ iVec 0 1 0 := by
  refine ⟨⟨?_, ?_, ?_, ?_, ?_⟩, ?_, ?_⟩
  · exact List.mem_cons_of_mem _ (List.mem_cons_of_mem _
      (List.mem_cons_self _ _))
  · norm_num [iVec]
  · norm_num [iVec, abs_le]
  · norm_num [iVec, abs_le]
  · norm_num [iVec, abs_le]
  · simp only [rayPoint, Vec3.mk.injEq]
    norm_num
  · simp only [placeTarget, iVec, ne_eq, Vec3.mk.injEq, not_and]
    intro h
    norm_num at h

/-- C2 amended: the placement-offset rule differs between the two source
variants.  In the P0 variant the new block position is the hit block
position plus the outward face normal, which does land on an adjacent
integer grid cell, and the reference scenario yields (0,1,0).  In the TSX
variant the target is instead floor(hit point + normal) + 0.5 per axis, so
the same scenario yields (0.5, 1.5, 0.5) rather than (0,1,0). -/
theorem place_adjacency_amended :
    (∀ c n : Vec3, placeTargetP0 c n = Vec3.add c n) ∧
    (∀ (cx cy cz : ℤ) (n : Vec3), n ∈ unitNormals →
      ∃ dx dy dz : ℤ, |dx| + |dy| + |dz| = 1 ∧
        placeTargetP0 (iVec cx cy cz) n
          = iVec (cx + dx) (cy + dy) (cz + dz)) ∧
    placeTargetP0 (iVec 0 0 0) ⟨0, 1, 0⟩ = iVec 0 1 0 ∧
    placeTarget ⟨0, 1/2, 0⟩ ⟨0, 1, 0⟩ = ⟨1/2, 3/2, 1/2⟩ := by
  refine ⟨fun c n => rfl, ?_, ?_, ?_⟩
  · intro cx cy cz n hn
    simp only [unitNormals, List.mem_cons, List.not_mem_nil, or_false] at hn
    rcases hn with rfl | rfl | rfl | rfl | rfl | rfl
    · refine ⟨1, 0, 0, by decide, ?_⟩
      simp only [placeTargetP0, Vec3.add, iVec, Vec3.mk.injEq]
      push_cast
      exact ⟨by ring, by ring, by ring⟩
    · refine ⟨-1, 0, 0, by decide, ?_⟩
      simp only [placeTargetP0, Vec3.add, iVec, Vec3.mk.injEq]
      push_cast
      exact ⟨by ring, by ring, by ring⟩
    · refine ⟨0, 1, 0, by decide, ?_⟩
      simp only [placeTargetP0, Vec3.add, iVec, Vec3.mk.injEq]
      push_cast
      exact ⟨by ring, by ring, by ring⟩
    · refine ⟨0, -1, 0, by decide, ?_⟩
      simp only [placeTargetP0, Vec3.add, iVec, Vec3.mk.injEq]
      push_cast
      exact ⟨by ring, by ring, by ring⟩
    · refine ⟨0, 0, 1, by decide, ?_⟩
      simp only [placeTargetP0, Vec3.add, iVec, Vec3.mk.injEq]
      push_cast
      exact ⟨by ring, by ring, by ring⟩
    · refine ⟨0, 0, -1, by decide, ?_⟩
      simp only [placeTargetP0, Vec3.add, iVec, Vec3.mk.injEq]
      push_cast
      exact ⟨by ring, by ring, by ring⟩
  · simp only [placeTargetP0, Vec3.add, iVec, Vec3.mk.injEq]
    norm_num
  · simp only [placeTarget, Vec3.mk.injEq]
    norm_num

theorem place_adjacency_amended_witness :
    ((⟨0, 1, 0⟩ : Vec3) ∈ unitNormals) ∧
    ∃ dx dy dz : ℤ, |dx| + |dy| + |dz| = 1 ∧
      placeTargetP0 (iVec 0 0 0) ⟨0, 1, 0⟩
        = iVec (0 + dx) (0 + dy) (0 + dz) :=
  ⟨List.mem_cons_of_mem _ (List.mem_cons_of_mem _ (List.mem_cons_self _ _)),
    place_adjacency_amended.2.1 0 0 0 ⟨0, 1, 0⟩
      (List.mem_cons_of_mem _ (List.mem_cons_of_mem _
        (List.mem_cons_self _ _)))⟩

/-- C3: Terrain height-threshold gating.  First clause, the TSX variant:
every generated block of a column whose height is at most 1 is Stone, and
Grass and Dirt blocks occur only with y = height, respectively
height - 2 <= y < height, and only when height > 1.  Second clause: for
heights above 1 the ungated P0 classifier agrees with the gated TSX one.
Third clause: every column height of the P0 variant formula
floor(sin * cos * 3) + 5 exceeds 1, whatever the sine and cosine
arguments, so the P0 variant never generates a column the gate would
treat differently. -/
theorem terrain_height_gating :
    (∀ (hf : ℤ → ℤ → ℤ) (xmin xmax zmin zmax : ℤ) (e : String × Block)
        (x y z : ℤ),
      e ∈ generateTerrain classify hf xmin xmax zmin zmax →
      e.2.position = iVec x y z →
      (hf x z ≤ 1 → e.2.type = .STONE) ∧
      (e.2.type = .GRASS → y = hf x z ∧ 1 < hf x z) ∧
      (e.2.type = .DIRT →
        hf x z - 2 ≤ y ∧ y < hf x z ∧ 1 < hf x z)) ∧
    (∀ h y : ℤ, 1 < h → classifyP0 h y = classify h y) ∧
    (∀ a b : ℝ, 1 < ⌊Real.sin a * Real.cos b * 3⌋ + 5) := by
  refine ⟨?_, ?_, ?_⟩
  · intro hf xmin xmax zmin zmax e x y z he hpos
    rcases mem_generateTerrain classify hf xmin xmax zmin zmax e he with
      ⟨x', y', z', _, _, _, _, hy0, hy1, rfl⟩
    obtain ⟨rfl, rfl, rfl⟩ := iVec_inj hpos
    refine ⟨?_, ?_, ?_⟩
    · intro hh
      exact classify_eq_STONE_of_le_one hh
    · intro hg
      exact grass_classify hg
    · intro hd
      obtain ⟨ha, hb, hc⟩ := dirt_classify hd
      exact ⟨ha, lt_of_le_of_ne hy1 hb, hc⟩
  · intro h y hh
    exact classifyP0_eq_classify hh
  · intro a b
    have h1 := Real.neg_one_le_sin a
    have h2 := Real.neg_one_le_cos b
    have h3 := Real.sin_le_one a
    have h4 := Real.cos_le_one b
    have hlow : (-3:ℝ) ≤ Real.sin a * Real.cos b * 3 := by nlinarith
    have hf : (-3 : ℤ) ≤ ⌊Real.sin a * Real.cos b * 3⌋ := by
      rw [Int.le_floor]
      push_cast
      linarith
    omega

theorem terrain_height_gating_witness :
    (("0,0,0", (⟨BlockType.STONE, iVec 0 0 0⟩ : Block))
      ∈ generateTerrain classify (fun _ _ => 1) 0 0 0 0) ∧
    ((1:ℤ) ≤ 1) ∧
    (⟨BlockType.STONE, iVec 0 0 0⟩ : Block).type = BlockType.STONE :=
  ⟨by decide, le_refl 1,
    (terrain_height_gating.1 (fun _ _ => 1) 0 0 0 0
      ("0,0,0", ⟨BlockType.STONE, iVec 0 0 0⟩) 0 0 0
      (by decide) rfl).1 (le_refl 1)⟩

/-- C9: In the TSX variant every block created by a place action has
coordinates of the form n + 0.5 on every axis, so its string key is never
the key of a terrain-generated block, whose coordinates are integers. -/
theorem placed_block_keys_disjoint :
    (∀ point normal : Vec3, ∃ a b c : ℤ,
      placeTarget point normal
        = ⟨(a : ℚ) + 1/2, (b : ℚ) + 1/2, (c : ℚ) + 1/2⟩) ∧
    (∀ (point normal : Vec3) (x y z : ℤ),
      posKey (placeTarget point normal) ≠ posKey (iVec x y z)) ∧
    (∀ (cl : ℤ → ℤ → BlockType) (hf : ℤ → ℤ → ℤ)
        (xmin xmax zmin zmax : ℤ) (point normal : Vec3)
        (e : String × Block),
      e ∈ generateTerrain cl hf xmin xmax zmin zmax →
      e.1 ≠ posKey (placeTarget point normal)) := by
  refine ⟨?_, ?_, ?_⟩
  · intro p n
    exact ⟨⌊p.x + n.x⌋, ⌊p.y + n.y⌋, ⌊p.z + n.z⌋, rfl⟩
  · intro p n x y z
    exact posKey_target_ne_iVec p n x y z
  · intro cl hf xmin xmax zmin zmax p n e he h
    rcases mem_generateTerrain cl hf xmin xmax zmin zmax e he with
      ⟨x, y, z, _, _, _, _, _, _, rfl⟩
    exact posKey_target_ne_iVec p n x y z h.symm

theorem placed_block_keys_disjoint_witness :
    (("0,0,0", (⟨BlockType.STONE, iVec 0 0 0⟩ : Block))
      ∈ generateTerrain classify (fun _ _ => 0) 0 0 0 0) ∧
    ("0,0,0", (⟨BlockType.STONE, iVec 0 0 0⟩ : Block)).1
      ≠ posKey (placeTarget ⟨0, 1/2, 0⟩ ⟨0, 1, 0⟩) :=
  ⟨by decide,
    placed_block_keys_disjoint.2.2 classify (fun _ _ => 0) 0 0 0 0
      ⟨0, 1/2, 0⟩ ⟨0, 1, 0⟩ ("0,0,0", ⟨BlockType.STONE, iVec 0 0 0⟩)
      (by decide)⟩

/-- C10: Terrain generation leaves a column empty whenever its computed
height is negative: no generated block sits at any y of such a column.
With the TSX base offset 2, the concrete formula height at the in-bounds
column x = -20, z = 0 is floor(sin(-2) * cos(0) * 3) + 2 = -1, a negative
height, so such columns occur within the generated -20..20 bounds. -/
theorem terrain_empty_columns :
    (∀ (cl : ℤ → ℤ → BlockType) (hf : ℤ → ℤ → ℤ)
        (xmin xmax zmin zmax x y z : ℤ),
      hf x z < 0 →
      ∀ e ∈ generateTerrain cl hf xmin xmax zmin zmax,
        e.2.position ≠ iVec x y z) ∧
    (⌊Real.sin ((-20 : ℝ) * (1/10)) * Real.cos ((0 : ℝ) * (1/10)) * 3⌋ + 2
      = -1) ∧
    ((-20 : ℤ) ∈ intRange (-20) 20) ∧ ((0 : ℤ) ∈ intRange (-20) 20) := by
  refine ⟨?_, ?_, ?_, ?_⟩
  · intro cl hf xmin xmax zmin zmax x y z hneg e he hpos
    rcases mem_generateTerrain cl hf xmin xmax zmin zmax e he with
      ⟨x', y', z', _, _, _, _, hy0, hy1, rfl⟩
    obtain ⟨rfl, rfl, rfl⟩ := iVec_inj hpos
    omega
  · have e1 : ((-20 : ℝ) * (1/10)) = -2 := by norm_num
    have e2 : ((0:ℝ) * (1/10)) = 0 := by norm_num
    rw [e1, e2, Real.cos_zero, Real.sin_neg]
    have h1 := sin_two_gt
    have h2 := Real.sin_le_one 2
    have h5 : ⌊-Real.sin 2 * 1 * 3⌋ = -3 := by
      rw [Int.floor_eq_iff]
      constructor
      · push_cast
        nlinarith
      · push_cast
        nlinarith
    rw [h5]
    decide
  · rw [mem_intRange]
    omega
  · rw [mem_intRange]
    omega

theorem terrain_empty_columns_witness :
    ((fun x _ => -x : ℤ → ℤ → ℤ) 5 5 < 0) ∧
    (("0,0,0", (⟨BlockType.STONE, iVec 0 0 0⟩ : Block))
      ∈ generateTerrain classify (fun x _ => -x) 0 0 0 0) ∧
    ("0,0,0", (⟨BlockType.STONE, iVec 0 0 0⟩ : Block)).2.position
      ≠ iVec 5 0 5 :=
  ⟨by decide, by decide,
    terrain_empty_columns.1 classify (fun x _ => -x) 0 0 0 0 5 0 5
      (by decide) ("0,0,0", ⟨BlockType.STONE, iVec 0 0 0⟩) (by decide)⟩
